import Mathlib

/-!
Verification of the EdAddAssign precompile chip
(`src/core/src/syscall/precompiles/edwards/ed_add.rs`):
event production, trace generation and the AIR constraint set for
twisted Edwards point addition.

The chip itself is embedded from the source.  The field-operation
gadgets, memory-access column types, `create_ec_add_event` and
`pad_rows` live outside the provided sources, so they are modelled
from the specification, as marked in their doc comments.
-/

namespace EdAddSpec

/-- Modelled from the spec: `NUM_LIMBS` comes from the external field
parameter contract; coordinates are 256-bit with 8-bit limbs, so 32 limbs. -/
def NUM_LIMBS : Nat := 32

/-- Modelled from the spec: a memory access record of an event: value,
old value, and ordering metadata (shard, clock, address). -/
structure MemRecord where
  addr : Nat
  shard : Nat
  clk : Nat
  prevValue : Nat
  value : Nat
deriving DecidableEq

def zeroRec : MemRecord := ⟨0, 0, 0, 0, 0⟩

/-- Modelled from the spec: an auxiliary range-check field event emitted
while populating a memory access column; a deterministic function of the
access record being populated. -/
structure FieldEvent where
  source : MemRecord
deriving DecidableEq

/-- The `ECAddEvent` consumed by `generate_trace` (its struct declaration
lives outside `src/`; fields are taken from the spec data model §3 and
the uses in `generate_trace`). -/
structure ECAddEvent where
  shard : Nat
  clk : Nat
  p_ptr : Nat
  q_ptr : Nat
  p : List Nat
  q : List Nat
  p_memory_records : List MemRecord
  q_memory_records : List MemRecord
  q_ptr_record : MemRecord
deriving DecidableEq

/-- Modelled from the spec: the memory access columns
(`MemoryReadCols` and `MemoryWriteCols` abstracted to their observable
fields): old/new value and the shard/clock/address metadata the
memory-access well-formedness constraints check. -/
structure MemoryAccessCols where
  prevValue : Nat
  value : Nat
  shard : Nat
  clk : Nat
  addr : Nat
deriving DecidableEq

def zeroAccess : MemoryAccessCols := ⟨0, 0, 0, 0, 0⟩

/-- A field-operation gadget column group, abstracted to its `result`
column (the internal carry/range-check columns belong to the external
gadget library). -/
structure FieldGadgetCols (pp : Nat) where
  result : ZMod pp
deriving DecidableEq

/-- The column layout `EdAddAssignCols` (source lines 47-64). -/
structure EdAddAssignCols (pp : Nat) where
  is_real : Nat
  shard : Nat
  clk : Nat
  p_ptr : Nat
  q_ptr : Nat
  q_ptr_access : MemoryAccessCols
  p_access : List MemoryAccessCols
  q_access : List MemoryAccessCols
  x3_numerator : FieldGadgetCols pp
  y3_numerator : FieldGadgetCols pp
  x1_mul_y1 : FieldGadgetCols pp
  x2_mul_y2 : FieldGadgetCols pp
  f : FieldGadgetCols pp
  d_mul_f : FieldGadgetCols pp
  x3_ins : FieldGadgetCols pp
  y3_ins : FieldGadgetCols pp
deriving DecidableEq

/-- The all-zero row `[F::zero(); NUM_ED_ADD_COLS]` (source lines 140, 180). -/
def zeroRow (pp : Nat) : EdAddAssignCols pp where
  is_real := 0
  shard := 0
  clk := 0
  p_ptr := 0
  q_ptr := 0
  q_ptr_access := zeroAccess
  p_access := List.replicate 16 zeroAccess
  q_access := List.replicate 16 zeroAccess
  x3_numerator := ⟨0⟩
  y3_numerator := ⟨0⟩
  x1_mul_y1 := ⟨0⟩
  x2_mul_y2 := ⟨0⟩
  f := ⟨0⟩
  d_mul_f := ⟨0⟩
  x3_ins := ⟨0⟩
  y3_ins := ⟨0⟩

/-! ## Base-field semantics of the external field gadgets -/

/-- Structural-recursion power on the base field (used for the Fermat
inverse, keeping everything kernel-executable). -/
def myPow (pp : Nat) (a : ZMod pp) : Nat → ZMod pp
  | 0 => 1
  | n + 1 => myPow pp a n * a

/-- Modelled from the spec: multiplicative inverse as the Fermat power
for a prime base field. -/
def finv (pp : Nat) (a : ZMod pp) : ZMod pp := myPow pp a (pp - 2)

/-- Modelled from the spec: base-field division, multiplication by the
inverse. -/
def fdiv (pp : Nat) (a b : ZMod pp) : ZMod pp := a * finv pp b

/-- The `FieldOperation` enum of the external gadget library. -/
inductive FieldOperation
  | Add
  | Mul
  | Sub
  | Div
deriving DecidableEq

/-- Modelled from the spec: a `FieldOpCols` gadget computes the modular
result of the stated operation on its two inputs. -/
def fieldOpSem (pp : Nat) (op : FieldOperation) (a b : ZMod pp) : ZMod pp :=
  match op with
  | .Add => a + b
  | .Mul => a * b
  | .Sub => a - b
  | .Div => fdiv pp a b

/-- Modelled from the spec: a `FieldInnerProductCols` gadget computes the
sum of products of its paired inputs. -/
def innerProductSem (pp : Nat) (a b : List (ZMod pp)) : ZMod pp :=
  ((a.zip b).map fun ab => ab.1 * ab.2).sum

/-- Modelled from the spec: a `FieldDenCols` gadget computes
`a / (1 + b)` when `sign` is true and `a / (1 - b)` when it is false. -/
def denSem (pp : Nat) (a b : ZMod pp) (sign : Bool) : ZMod pp :=
  fdiv pp a (if sign then 1 + b else 1 - b)

/-! ## Witness population (source lines 77-109) -/

/-- Embedding of `populate_field_ops` (source lines 77-109): the witness chain, one
gadget populate per line, in source order, over big-integer inputs. -/
def populate_field_ops (pp dNat : Nat) (cols : EdAddAssignCols pp)
    (p_x p_y q_x q_y : Nat) : EdAddAssignCols pp :=
  let x3_numerator := innerProductSem pp
    [(p_x : ZMod pp), (q_x : ZMod pp)] [(q_y : ZMod pp), (p_y : ZMod pp)]
  let y3_numerator := innerProductSem pp
    [(p_y : ZMod pp), (p_x : ZMod pp)] [(q_y : ZMod pp), (q_x : ZMod pp)]
  let x1_mul_y1 := fieldOpSem pp .Mul (p_x : ZMod pp) (p_y : ZMod pp)
  let x2_mul_y2 := fieldOpSem pp .Mul (q_x : ZMod pp) (q_y : ZMod pp)
  let f := fieldOpSem pp .Mul x1_mul_y1 x2_mul_y2
  let d := (dNat : ZMod pp)
  let d_mul_f := fieldOpSem pp .Mul f d
  { cols with
    x3_numerator := ⟨x3_numerator⟩
    y3_numerator := ⟨y3_numerator⟩
    x1_mul_y1 := ⟨x1_mul_y1⟩
    x2_mul_y2 := ⟨x2_mul_y2⟩
    f := ⟨f⟩
    d_mul_f := ⟨d_mul_f⟩
    x3_ins := ⟨denSem pp x3_numerator d_mul_f true⟩
    y3_ins := ⟨denSem pp y3_numerator d_mul_f false⟩ }

/-! ## Word and limb encoding -/

/-- Little-endian assembly of 32-bit words into one big integer
(`AffinePoint::from_words_le`, external, per spec §6 memory layout). -/
def wordsToNat (ws : List Nat) : Nat :=
  ws.foldr (fun w acc => w + 2 ^ 32 * acc) 0

/-- Little-endian decomposition of a big integer into `len` 32-bit words
(the encoding direction of the spec §6 memory layout). -/
def wordsLE (n len : Nat) : List Nat :=
  (List.range len).map fun i => n / 2 ^ (32 * i) % 2 ^ 32

/-- Byte `k` of a machine word (a `Word` column holds its four bytes). -/
def byteOf (w k : Nat) : Nat := w / 2 ^ (8 * k) % 2 ^ 8

/-- Limb `i` of a field element: byte `i` of its canonical value. -/
def limbOf (pp : Nat) (x : ZMod pp) (i : Nat) : Nat := byteOf (ZMod.val x) i

/-! ## Trace generation (source lines 130-192) -/

/-- Modelled from the spec: populating a `MemoryReadCols` from a read
record: the single stored value serves as both old and new value. -/
def readCols (r : MemRecord) : MemoryAccessCols :=
  { prevValue := r.value, value := r.value, shard := r.shard,
    clk := r.clk, addr := r.addr }

/-- Modelled from the spec: populating a `MemoryWriteCols` from a write
record: old and new value plus ordering metadata. -/
def writeCols (r : MemRecord) : MemoryAccessCols :=
  { prevValue := r.prevValue, value := r.value, shard := r.shard,
    clk := r.clk, addr := r.addr }

/-- Modelled from the spec: the deterministic list of range-check field
events one memory access populate appends. -/
def recFieldEvents (r : MemRecord) : List FieldEvent := [⟨r⟩]

/-- The per-event body of the parallel map in `generate_trace`
(source lines 139-171): decode the points, populate the scalar and
gadget columns, then the memory access columns (Q reads first, then P
accesses, then the Q-pointer read), collecting field events in that
order. -/
def eventToRow (pp dNat : Nat) (event : ECAddEvent) :
    EdAddAssignCols pp × List FieldEvent :=
  let p_x := wordsToNat (event.p.take 8)
  let p_y := wordsToNat (event.p.drop 8)
  let q_x := wordsToNat (event.q.take 8)
  let q_y := wordsToNat (event.q.drop 8)
  let cols := { zeroRow pp with
    is_real := 1
    shard := event.shard
    clk := event.clk
    p_ptr := event.p_ptr
    q_ptr := event.q_ptr }
  let cols := populate_field_ops pp dNat cols p_x p_y q_x q_y
  let cols := { cols with
    q_access := event.q_memory_records.map readCols
    p_access := event.p_memory_records.map writeCols
    q_ptr_access := readCols event.q_ptr_record }
  let newFieldEvents :=
    event.q_memory_records.flatMap recFieldEvents
      ++ event.p_memory_records.flatMap recFieldEvents
      ++ recFieldEvents event.q_ptr_record
  (cols, newFieldEvents)

/-- The padding row (source lines 179-185): the all-zero row with the
field-operation chain run on all-zero inputs. -/
def paddingRow (pp dNat : Nat) : EdAddAssignCols pp :=
  populate_field_ops pp dNat (zeroRow pp) 0 0 0 0

/-- Modelled from the spec: `pad_rows` pads to the next power-of-two row
count (one row when the batch is empty). -/
def padLen (n : Nat) : Nat := if n = 0 then 1 else 2 ^ Nat.clog 2 n

/-- Embedding of `generate_trace` (source lines 130-192): one row per event in input
order, field events merged in input order, then padding rows up to the
power-of-two row count.  Returns the rows and the field events appended
to the output record. -/
def generate_trace (pp dNat : Nat) (events : List ECAddEvent) :
    List (EdAddAssignCols pp) × List FieldEvent :=
  let pairs := events.map (eventToRow pp dNat)
  let rows := pairs.map (fun pr => pr.1)
  let newFieldEvents := (pairs.map (fun pr => pr.2)).flatten
  (rows ++ List.replicate (padLen events.length - events.length)
      (paddingRow pp dNat),
   newFieldEvents)

/-! ## The syscall (source lines 112-122) -/

/-- The part of the execution record the chip touches. -/
structure SyscallContext where
  ed_add_events : List ECAddEvent
  producedEvent : ECAddEvent
deriving DecidableEq

/-- Modelled from the spec: `create_ec_add_event` performs the logged
reads/writes and returns the immutable event; its internals live outside
`src/`, so the context carries the event it produces. -/
def create_ec_add_event (rt : SyscallContext) : ECAddEvent :=
  rt.producedEvent

/-- Embedding of `num_extra_cycles` (source lines 113-115). -/
def num_extra_cycles : Nat := 8

/-- Embedding of `execute` (source lines 117-121): create the event, push it onto the
record, and return `event.p_ptr + 1`. -/
def execute (rt : SyscallContext) : SyscallContext × Nat :=
  let event := create_ec_add_event rt
  ({ rt with ed_add_events := rt.ed_add_events ++ [event] },
   event.p_ptr + 1)

/-! ## Reference addition law and event well-formedness -/

/-- Modelled from the spec: the twisted Edwards addition law (§4.3 and
glossary): `x3 = (x1 y2 + x2 y1) / (1 + d x1 x2 y1 y2)`,
`y3 = (y1 y2 + x1 x2) / (1 - d x1 x2 y1 y2)`. -/
def addPoints (pp dNat : Nat) (x1 y1 x2 y2 : ZMod pp) : ZMod pp × ZMod pp :=
  let d := (dNat : ZMod pp)
  let f := x1 * x2 * y1 * y2
  (fdiv pp (x1 * y2 + x2 * y1) (1 + d * f),
   fdiv pp (y1 * y2 + x1 * x2) (1 - d * f))

/-- The sum point the Event Producer computes for an event: the
addition law applied to the decoded operand points. -/
def eventSum (pp dNat : Nat) (e : ECAddEvent) : ZMod pp × ZMod pp :=
  addPoints pp dNat
    ((wordsToNat (e.p.take 8) : Nat) : ZMod pp)
    ((wordsToNat (e.p.drop 8) : Nat) : ZMod pp)
    ((wordsToNat (e.q.take 8) : Nat) : ZMod pp)
    ((wordsToNat (e.q.drop 8) : Nat) : ZMod pp)

/-- The 16-word little-endian encoding of the sum point written back to
the P cells (spec §4.1, §6). -/
def eventSumWords (pp dNat : Nat) (e : ECAddEvent) : List Nat :=
  wordsLE (ZMod.val (eventSum pp dNat e).1) 8
    ++ wordsLE (ZMod.val (eventSum pp dNat e).2) 8

/-- Modelled from the spec: the invariants of an event built by the
Event Producer (§4.1): 16 words per point, 16 records per point; each Q
read record carries the read word at address `q_ptr + 4 i` with the
event's shard and clock; each P write record carries the old P word, the
corresponding word of the encoded sum, address `p_ptr + 4 i`, the
event's shard and clock plus 4; the Q-pointer read record carries the
pointer value at the fixed register address 11 at the event's shard and
clock. -/
def wellFormedEvent (pp dNat : Nat) (e : ECAddEvent) : Prop :=
  e.p.length = 16 ∧ e.q.length = 16 ∧
  e.p_memory_records.length = 16 ∧ e.q_memory_records.length = 16 ∧
  (∀ i, i < 16 →
    (e.q_memory_records.getD i zeroRec).value = e.q.getD i 0 ∧
    (e.q_memory_records.getD i zeroRec).addr = e.q_ptr + 4 * i ∧
    (e.q_memory_records.getD i zeroRec).shard = e.shard ∧
    (e.q_memory_records.getD i zeroRec).clk = e.clk) ∧
  (∀ i, i < 16 →
    (e.p_memory_records.getD i zeroRec).prevValue = e.p.getD i 0 ∧
    (e.p_memory_records.getD i zeroRec).value
      = (eventSumWords pp dNat e).getD i 0 ∧
    (e.p_memory_records.getD i zeroRec).addr = e.p_ptr + 4 * i ∧
    (e.p_memory_records.getD i zeroRec).shard = e.shard ∧
    (e.p_memory_records.getD i zeroRec).clk = e.clk + 4) ∧
  (e.q_ptr_record.value = e.q_ptr ∧
   e.q_ptr_record.addr = 11 ∧
   e.q_ptr_record.shard = e.shard ∧
   e.q_ptr_record.clk = e.clk)

instance wellFormedEventDecidable (pp dNat : Nat) (e : ECAddEvent) :
    Decidable (wellFormedEvent pp dNat e) := by
  unfold wellFormedEvent; infer_instance

/-! ## The constraint set emitted by `eval` (source lines 205-287)

The AIR is embedded as the explicit list of constraints `eval` emits on
one row, together with their satisfaction semantics on a concrete row.
-/

/-- The eight field-operation gadget instances of the row. -/
inductive GadgetId
  | x3_numerator
  | y3_numerator
  | x1_mul_y1
  | x2_mul_y2
  | f
  | d_mul_f
  | x3_ins
  | y3_ins
deriving DecidableEq

/-- An operand wire as it appears in the gadget formulas: one of the
four decoded input coordinates, the result of an earlier gadget, or the
fixed curve constant `d`. -/
inductive Wire
  | X1
  | X2
  | Y1
  | Y2
  | res (g : GadgetId)
  | dConst
deriving DecidableEq

/-- The shape of one gadget invocation: which gadget kind, with which
operand wires in which order. -/
inductive GadgetCall
  | innerProduct (a b : List Wire)
  | fieldOp (a b : Wire) (op : FieldOperation)
  | den (num den : Wire) (sign : Bool)
deriving DecidableEq

/-- The gadget formulas of the witness side, read off `populate_field_ops`
(source lines 84-108): gadget by gadget in source order, with `p_x, p_y`
as `X1, Y1` and `q_x, q_y` as `X2, Y2`. -/
def populateFormulas : List (GadgetId × GadgetCall) :=
  [(.x3_numerator, .innerProduct [.X1, .X2] [.Y2, .Y1]),
   (.y3_numerator, .innerProduct [.Y1, .X1] [.Y2, .X2]),
   (.x1_mul_y1, .fieldOp .X1 .Y1 .Mul),
   (.x2_mul_y2, .fieldOp .X2 .Y2 .Mul),
   (.f, .fieldOp (.res .x1_mul_y1) (.res .x2_mul_y2) .Mul),
   (.d_mul_f, .fieldOp (.res .f) .dConst .Mul),
   (.x3_ins, .den (.res .x3_numerator) (.res .d_mul_f) true),
   (.y3_ins, .den (.res .y3_numerator) (.res .d_mul_f) false)]

/-- The gadget formulas of the constraint side, read off `eval`
(source lines 209-249): gadget by gadget in source order, with
`x1 = limbs_from_prev_access(p_access[0..8])` as `X1` and so on. -/
def evalFormulas : List (GadgetId × GadgetCall) :=
  [(.x3_numerator, .innerProduct [.X1, .X2] [.Y2, .Y1]),
   (.y3_numerator, .innerProduct [.Y1, .X1] [.Y2, .X2]),
   (.x1_mul_y1, .fieldOp .X1 .Y1 .Mul),
   (.x2_mul_y2, .fieldOp .X2 .Y2 .Mul),
   (.f, .fieldOp (.res .x1_mul_y1) (.res .x2_mul_y2) .Mul),
   (.d_mul_f, .fieldOp (.res .f) .dConst .Mul),
   (.x3_ins, .den (.res .x3_numerator) (.res .d_mul_f) true),
   (.y3_ins, .den (.res .y3_numerator) (.res .d_mul_f) false)]

/-- The 33 memory accesses of a row. -/
inductive AccessId
  | qPtrAccess
  | qAccess (i : Nat)
  | pAccess (i : Nat)
deriving DecidableEq

/-- The address expression passed to `constraint_memory_access`. -/
inductive AddrExpr
  | const (c : Nat)
  | qPtrPlus (o : Nat)
  | pPtrPlus (o : Nat)
deriving DecidableEq

/-- One constraint emitted by `eval`: a gadget-correctness constraint,
one limb-equality constraint tying an `x3`/`y3` result limb to a new
P-memory value byte (gated by `is_real`), or one memory-access
well-formedness constraint (gated by `is_real`). -/
inductive Constraint
  | gadget (g : GadgetId) (call : GadgetCall)
  | limbTieX (i : Nat)
  | limbTieY (i : Nat)
  | memAccess (clkOffset : Nat) (addr : AddrExpr) (acc : AccessId)
deriving DecidableEq

/-- The gadget-correctness constraints, in source order (lines 214-249). -/
def gadgetConstraints : List Constraint :=
  evalFormulas.map fun gc => Constraint.gadget gc.1 gc.2

/-- The result-to-memory limb ties, in source order (lines 253-260):
for each limb, the `x3` tie then the `y3` tie. -/
def limbTieConstraints : List Constraint :=
  (List.range NUM_LIMBS).flatMap fun i =>
    [Constraint.limbTieX i, Constraint.limbTieY i]

/-- The memory-access well-formedness constraints, in source order
(lines 262-286): the Q-pointer read at the fixed address 11 and clock
offset 0, the 16 Q reads at `q_ptr + 4 i` and offset 0, the 16 P
accesses at `p_ptr + 4 i` and offset 4. -/
def memConstraints : List Constraint :=
  [Constraint.memAccess 0 (.const 11) .qPtrAccess]
    ++ ((List.range 16).map fun i =>
        Constraint.memAccess 0 (.qPtrPlus (4 * i)) (.qAccess i))
    ++ ((List.range 16).map fun i =>
        Constraint.memAccess 4 (.pPtrPlus (4 * i)) (.pAccess i))

/-- The full constraint list emitted by `eval` on one row, in source
order. -/
def evalConstraints : List Constraint :=
  gadgetConstraints ++ limbTieConstraints ++ memConstraints

/-- The value of an operand wire on a concrete row: the input
coordinates are assembled from the previous values of the memory access
columns (`limbs_from_prev_access`, lines 209-212), gadget results are
the gadget result columns, and `dConst` is the curve constant. -/
def evalWire (pp dNat : Nat) (row : EdAddAssignCols pp) : Wire → ZMod pp
  | .X1 => ((wordsToNat ((row.p_access.take 8).map
      (fun a => a.prevValue)) : Nat) : ZMod pp)
  | .X2 => ((wordsToNat ((row.q_access.take 8).map
      (fun a => a.prevValue)) : Nat) : ZMod pp)
  | .Y1 => ((wordsToNat ((row.p_access.drop 8).map
      (fun a => a.prevValue)) : Nat) : ZMod pp)
  | .Y2 => ((wordsToNat ((row.q_access.drop 8).map
      (fun a => a.prevValue)) : Nat) : ZMod pp)
  | .res g =>
    match g with
    | .x3_numerator => row.x3_numerator.result
    | .y3_numerator => row.y3_numerator.result
    | .x1_mul_y1 => row.x1_mul_y1.result
    | .x2_mul_y2 => row.x2_mul_y2.result
    | .f => row.f.result
    | .d_mul_f => row.d_mul_f.result
    | .x3_ins => row.x3_ins.result
    | .y3_ins => row.y3_ins.result
  | .dConst => ((dNat : Nat) : ZMod pp)

/-- The value a gadget call computes from the row's wires (the external
gadget contract applied to the row). -/
def interpCall (pp dNat : Nat) (row : EdAddAssignCols pp) :
    GadgetCall → ZMod pp
  | .innerProduct a b =>
    innerProductSem pp (a.map (evalWire pp dNat row))
      (b.map (evalWire pp dNat row))
  | .fieldOp a b op =>
    fieldOpSem pp op (evalWire pp dNat row a) (evalWire pp dNat row b)
  | .den num den sign =>
    denSem pp (evalWire pp dNat row num) (evalWire pp dNat row den) sign

/-- The memory access columns a constraint refers to. -/
def accessOf (pp : Nat) (row : EdAddAssignCols pp) :
    AccessId → MemoryAccessCols
  | .qPtrAccess => row.q_ptr_access
  | .qAccess i => row.q_access.getD i zeroAccess
  | .pAccess i => row.p_access.getD i zeroAccess

/-- The concrete address an address expression denotes on a row. -/
def evalAddr (pp : Nat) (row : EdAddAssignCols pp) : AddrExpr → Nat
  | .const c => c
  | .qPtrPlus o => row.q_ptr + o
  | .pPtrPlus o => row.p_ptr + o

/-- Satisfaction of one constraint on a concrete row.  Gadget
constraints are ungated; the limb ties and the memory well-formedness
constraints are gated by `is_real` (a gated constraint holds trivially
when `is_real = 0`). -/
def constraintHolds (pp dNat : Nat) (row : EdAddAssignCols pp) :
    Constraint → Prop
  | .gadget g call =>
    evalWire pp dNat row (.res g) = interpCall pp dNat row call
  | .limbTieX i =>
    row.is_real = 0 ∨
      limbOf pp row.x3_ins.result i =
        byteOf (accessOf pp row (.pAccess (i / 4))).value (i % 4)
  | .limbTieY i =>
    row.is_real = 0 ∨
      limbOf pp row.y3_ins.result i =
        byteOf (accessOf pp row (.pAccess (8 + i / 4))).value (i % 4)
  | .memAccess off addr acc =>
    row.is_real = 0 ∨
      ((accessOf pp row acc).shard = row.shard ∧
       (accessOf pp row acc).clk = row.clk + off ∧
       (accessOf pp row acc).addr = evalAddr pp row addr)

instance constraintHoldsDecidable (pp dNat : Nat)
    (row : EdAddAssignCols pp) (c : Constraint) :
    Decidable (constraintHolds pp dNat row c) := by
  cases c <;> · unfold constraintHolds; infer_instance

/-! ## Concrete test data (used by witness theorems) -/

/-- The 16-word memory image of an affine point with coordinates `x, y`. -/
def wordsOfPoint (x y : Nat) : List Nat := wordsLE x 8 ++ wordsLE y 8

/-- A concrete event skeleton over the 7-element field with twist
constant 3: P = (1, 2), Q = (3, 4), shard 5, clock 100. -/
def baseEvent : ECAddEvent :=
  { shard := 5, clk := 100, p_ptr := 1000, q_ptr := 2000,
    p := wordsOfPoint 1 2, q := wordsOfPoint 3 4,
    p_memory_records := [], q_memory_records := [],
    q_ptr_record := zeroRec }

/-- The event skeleton completed with well-formed memory records. -/
def testEvent : ECAddEvent :=
  { baseEvent with
    p_memory_records := (List.range 16).map fun i =>
      { addr := 1000 + 4 * i, shard := 5, clk := 104,
        prevValue := (wordsOfPoint 1 2).getD i 0,
        value := (eventSumWords 7 3 baseEvent).getD i 0 }
    q_memory_records := (List.range 16).map fun i =>
      { addr := 2000 + 4 * i, shard := 5, clk := 100,
        prevValue := (wordsOfPoint 3 4).getD i 0,
        value := (wordsOfPoint 3 4).getD i 0 }
    q_ptr_record :=
      { addr := 11, shard := 5, clk := 100, prevValue := 2000,
        value := 2000 } }

/-- A concrete syscall context whose produced event has `p_ptr = 0`. -/
def zeroPtrContext : SyscallContext :=
  { ed_add_events := [],
    producedEvent := { baseEvent with p_ptr := 0 } }

/-! ## Supporting lemmas -/

lemma byteOf_word (n q r : Nat) (hr : r < 4) :
    byteOf (n / 2 ^ (32 * q) % 2 ^ 32) r = byteOf n (4 * q + r) := by
  unfold byteOf
  have h32 : (2 : Nat) ^ 32 = 2 ^ (8 * r) * 2 ^ (32 - 8 * r) := by
    rw [← pow_add]
    congr 1
    omega
  rw [h32, Nat.mod_mul_right_div_self]
  have hdvd : (2 : Nat) ^ 8 ∣ 2 ^ (32 - 8 * r) :=
    pow_dvd_pow 2 (by omega)
  rw [Nat.mod_mod_of_dvd _ hdvd, Nat.div_div_eq_div_mul, ← pow_add]
  have he : 32 * q + 8 * r = 8 * (4 * q + r) := by omega
  rw [he]

lemma wordsLE_getD (n len i : Nat) (h : i < len) :
    (wordsLE n len).getD i 0 = n / 2 ^ (32 * i) % 2 ^ 32 := by
  unfold wordsLE
  rw [List.getD_eq_getElem _ _ (by simpa using h)]
  simp

lemma wordsLE_length (n len : Nat) : (wordsLE n len).length = len := by
  simp [wordsLE]

section Chain

variable (pp dNat : Nat) (cols : EdAddAssignCols pp) (p_x p_y q_x q_y : Nat)

lemma populate_x3_numerator :
    (populate_field_ops pp dNat cols p_x p_y q_x q_y).x3_numerator.result
      = (p_x : ZMod pp) * (q_y : ZMod pp)
        + (q_x : ZMod pp) * (p_y : ZMod pp) := by
  simp [populate_field_ops, innerProductSem]

lemma populate_y3_numerator :
    (populate_field_ops pp dNat cols p_x p_y q_x q_y).y3_numerator.result
      = (p_y : ZMod pp) * (q_y : ZMod pp)
        + (p_x : ZMod pp) * (q_x : ZMod pp) := by
  simp [populate_field_ops, innerProductSem]

lemma populate_x1_mul_y1 :
    (populate_field_ops pp dNat cols p_x p_y q_x q_y).x1_mul_y1.result
      = (p_x : ZMod pp) * (p_y : ZMod pp) := by
  simp [populate_field_ops, fieldOpSem]

lemma populate_x2_mul_y2 :
    (populate_field_ops pp dNat cols p_x p_y q_x q_y).x2_mul_y2.result
      = (q_x : ZMod pp) * (q_y : ZMod pp) := by
  simp [populate_field_ops, fieldOpSem]

lemma populate_f :
    (populate_field_ops pp dNat cols p_x p_y q_x q_y).f.result
      = (p_x : ZMod pp) * (q_x : ZMod pp)
        * (p_y : ZMod pp) * (q_y : ZMod pp) := by
  simp [populate_field_ops, fieldOpSem]
  ring

lemma populate_d_mul_f :
    (populate_field_ops pp dNat cols p_x p_y q_x q_y).d_mul_f.result
      = (dNat : ZMod pp)
        * (populate_field_ops pp dNat cols p_x p_y q_x q_y).f.result := by
  simp [populate_field_ops, fieldOpSem]
  ring

lemma populate_x3_ins :
    (populate_field_ops pp dNat cols p_x p_y q_x q_y).x3_ins.result
      = (addPoints pp dNat p_x p_y q_x q_y).1 := by
  simp [populate_field_ops, fieldOpSem, innerProductSem, denSem, addPoints]
  congr 1
  ring

lemma populate_y3_ins :
    (populate_field_ops pp dNat cols p_x p_y q_x q_y).y3_ins.result
      = (addPoints pp dNat p_x p_y q_x q_y).2 := by
  simp [populate_field_ops, fieldOpSem, innerProductSem, denSem, addPoints]
  congr 1
  ring

end Chain

lemma map_take_drop_eq (recs : List MemRecord) (ws : List Nat)
    (g : MemRecord → Nat)
    (hlr : recs.length = 16) (hlw : ws.length = 16)
    (h : ∀ i, i < 16 → g (recs.getD i zeroRec) = ws.getD i 0) :
    (recs.take 8).map g = ws.take 8 ∧ (recs.drop 8).map g = ws.drop 8 := by
  constructor
  · apply List.ext_getElem
    · simp [hlr, hlw]
    · intro i h1 h2
      have hi : i < 8 := by simp [hlr] at h1; omega
      have hi16 : i < 16 := by omega
      have hrec : i < recs.length := by omega
      have hws : i < ws.length := by omega
      have := h i hi16
      rw [List.getD_eq_getElem _ _ hrec, List.getD_eq_getElem _ _ hws] at this
      simp only [List.getElem_map, List.getElem_take]
      exact this
  · apply List.ext_getElem
    · simp [hlr, hlw]
    · intro i h1 h2
      have hi : i < 8 := by simp [hlr] at h1; omega
      have hi16 : 8 + i < 16 := by omega
      have hrec : 8 + i < recs.length := by omega
      have hws : 8 + i < ws.length := by omega
      have := h (8 + i) hi16
      rw [List.getD_eq_getElem _ _ hrec, List.getD_eq_getElem _ _ hws] at this
      simp only [List.getElem_map, List.getElem_drop]
      exact this

lemma realRow_scalar (pp dNat : Nat) (e : ECAddEvent) :
    (eventToRow pp dNat e).1.is_real = 1 ∧
    (eventToRow pp dNat e).1.shard = e.shard ∧
    (eventToRow pp dNat e).1.clk = e.clk ∧
    (eventToRow pp dNat e).1.p_ptr = e.p_ptr ∧
    (eventToRow pp dNat e).1.q_ptr = e.q_ptr := by
  simp [eventToRow, populate_field_ops]

lemma realRow_mem (pp dNat : Nat) (e : ECAddEvent) :
    (eventToRow pp dNat e).1.p_access = e.p_memory_records.map writeCols ∧
    (eventToRow pp dNat e).1.q_access = e.q_memory_records.map readCols ∧
    (eventToRow pp dNat e).1.q_ptr_access = readCols e.q_ptr_record := by
  simp [eventToRow, populate_field_ops]


lemma realRow_prev_words (pp dNat : Nat) (e : ECAddEvent)
    (hw : wellFormedEvent pp dNat e) :
    ((eventToRow pp dNat e).1.p_access.take 8).map (fun a => a.prevValue)
      = e.p.take 8 ∧
    ((eventToRow pp dNat e).1.p_access.drop 8).map (fun a => a.prevValue)
      = e.p.drop 8 ∧
    ((eventToRow pp dNat e).1.q_access.take 8).map (fun a => a.prevValue)
      = e.q.take 8 ∧
    ((eventToRow pp dNat e).1.q_access.drop 8).map (fun a => a.prevValue)
      = e.q.drop 8 := by
  obtain ⟨hpl, hql, hprl, hqrl, hq, hp, hqp⟩ := hw
  obtain ⟨hpacc, hqacc, -⟩ := realRow_mem pp dNat e
  rw [hpacc, hqacc]
  have hP := map_take_drop_eq e.p_memory_records e.p (fun r => r.prevValue)
    hprl hpl (fun i hi => (hp i hi).1)
  have hQ := map_take_drop_eq e.q_memory_records e.q (fun r => r.value)
    hqrl hql (fun i hi => (hq i hi).1)
  refine ⟨?_, ?_, ?_, ?_⟩
  · rw [← List.map_take, List.map_map]
    simpa [Function.comp, writeCols] using hP.1
  · rw [← List.map_drop, List.map_map]
    simpa [Function.comp, writeCols] using hP.2
  · rw [← List.map_take, List.map_map]
    simpa [Function.comp, readCols] using hQ.1
  · rw [← List.map_drop, List.map_map]
    simpa [Function.comp, readCols] using hQ.2

lemma realRow_wire_values (pp dNat : Nat) (e : ECAddEvent)
    (hw : wellFormedEvent pp dNat e) :
    evalWire pp dNat (eventToRow pp dNat e).1 .X1
      = ((wordsToNat (e.p.take 8) : Nat) : ZMod pp) ∧
    evalWire pp dNat (eventToRow pp dNat e).1 .Y1
      = ((wordsToNat (e.p.drop 8) : Nat) : ZMod pp) ∧
    evalWire pp dNat (eventToRow pp dNat e).1 .X2
      = ((wordsToNat (e.q.take 8) : Nat) : ZMod pp) ∧
    evalWire pp dNat (eventToRow pp dNat e).1 .Y2
      = ((wordsToNat (e.q.drop 8) : Nat) : ZMod pp) := by
  obtain ⟨h1, h2, h3, h4⟩ := realRow_prev_words pp dNat e hw
  refine ⟨?_, ?_, ?_, ?_⟩ <;> simp only [evalWire, h1, h2, h3, h4]

lemma realRow_all_gadget_cols (pp dNat : Nat) (e : ECAddEvent) :
    (eventToRow pp dNat e).1.x3_numerator
        = (populate_field_ops pp dNat (zeroRow pp) (wordsToNat (e.p.take 8))
            (wordsToNat (e.p.drop 8)) (wordsToNat (e.q.take 8))
            (wordsToNat (e.q.drop 8))).x3_numerator ∧
    (eventToRow pp dNat e).1.y3_numerator
        = (populate_field_ops pp dNat (zeroRow pp) (wordsToNat (e.p.take 8))
            (wordsToNat (e.p.drop 8)) (wordsToNat (e.q.take 8))
            (wordsToNat (e.q.drop 8))).y3_numerator ∧
    (eventToRow pp dNat e).1.x1_mul_y1
        = (populate_field_ops pp dNat (zeroRow pp) (wordsToNat (e.p.take 8))
            (wordsToNat (e.p.drop 8)) (wordsToNat (e.q.take 8))
            (wordsToNat (e.q.drop 8))).x1_mul_y1 ∧
    (eventToRow pp dNat e).1.x2_mul_y2
        = (populate_field_ops pp dNat (zeroRow pp) (wordsToNat (e.p.take 8))
            (wordsToNat (e.p.drop 8)) (wordsToNat (e.q.take 8))
            (wordsToNat (e.q.drop 8))).x2_mul_y2 ∧
    (eventToRow pp dNat e).1.f
        = (populate_field_ops pp dNat (zeroRow pp) (wordsToNat (e.p.take 8))
            (wordsToNat (e.p.drop 8)) (wordsToNat (e.q.take 8))
            (wordsToNat (e.q.drop 8))).f ∧
    (eventToRow pp dNat e).1.d_mul_f
        = (populate_field_ops pp dNat (zeroRow pp) (wordsToNat (e.p.take 8))
            (wordsToNat (e.p.drop 8)) (wordsToNat (e.q.take 8))
            (wordsToNat (e.q.drop 8))).d_mul_f ∧
    (eventToRow pp dNat e).1.x3_ins
        = (populate_field_ops pp dNat (zeroRow pp) (wordsToNat (e.p.take 8))
            (wordsToNat (e.p.drop 8)) (wordsToNat (e.q.take 8))
            (wordsToNat (e.q.drop 8))).x3_ins ∧
    (eventToRow pp dNat e).1.y3_ins
        = (populate_field_ops pp dNat (zeroRow pp) (wordsToNat (e.p.take 8))
            (wordsToNat (e.p.drop 8)) (wordsToNat (e.q.take 8))
            (wordsToNat (e.q.drop 8))).y3_ins := by
  simp [eventToRow, populate_field_ops]

lemma realRow_gadget_constraints (pp dNat : Nat) (e : ECAddEvent)
    (hw : wellFormedEvent pp dNat e) :
    ∀ c ∈ gadgetConstraints,
      constraintHolds pp dNat (eventToRow pp dNat e).1 c := by
  intro c hc
  obtain ⟨wX1, wY1, wX2, wY2⟩ := realRow_wire_values pp dNat e hw
  obtain ⟨g1, g2, g3, g4, g5, g6, g7, g8⟩ := realRow_all_gadget_cols pp dNat e
  simp only [gadgetConstraints, evalFormulas, List.map_cons, List.map_nil,
    List.mem_cons, List.not_mem_nil, or_false] at hc
  rcases hc with h | h | h | h | h | h | h | h <;> subst h <;>
    simp only [constraintHolds, interpCall, List.map_cons, List.map_nil,
      wX1, wY1, wX2, wY2] <;>
    simp only [evalWire, g1, g2, g3, g4, g5, g6, g7, g8] <;>
    simp [populate_field_ops, innerProductSem, fieldOpSem, denSem]

lemma getD_map_access (F : MemRecord → MemoryAccessCols)
    (recs : List MemRecord) (j : Nat) (h : j < recs.length) :
    (recs.map F).getD j zeroAccess = F (recs.getD j zeroRec) := by
  rw [List.getD_eq_getElem _ _ (by simpa using h), List.getD_eq_getElem _ _ h]
  simp

lemma eventSumWords_getD_left (pp dNat : Nat) (e : ECAddEvent)
    (j : Nat) (hj : j < 8) :
    (eventSumWords pp dNat e).getD j 0
      = ZMod.val (eventSum pp dNat e).1 / 2 ^ (32 * j) % 2 ^ 32 := by
  unfold eventSumWords
  rw [List.getD_append _ _ _ _ (by simpa [wordsLE_length] using hj)]
  exact wordsLE_getD _ 8 j hj

lemma eventSumWords_getD_right (pp dNat : Nat) (e : ECAddEvent)
    (j : Nat) (hj : j < 8) :
    (eventSumWords pp dNat e).getD (8 + j) 0
      = ZMod.val (eventSum pp dNat e).2 / 2 ^ (32 * j) % 2 ^ 32 := by
  unfold eventSumWords
  rw [List.getD_append_right _ _ _ _ (by simp [wordsLE_length])]
  rw [wordsLE_length]
  have h8 : 8 + j - 8 = j := by omega
  rw [h8]
  exact wordsLE_getD _ 8 j hj

lemma realRow_x3_result (pp dNat : Nat) (e : ECAddEvent) :
    (eventToRow pp dNat e).1.x3_ins.result = (eventSum pp dNat e).1 := by
  have g7 := (realRow_all_gadget_cols pp dNat e).2.2.2.2.2.2.1
  rw [g7, populate_x3_ins]
  rfl

lemma realRow_y3_result (pp dNat : Nat) (e : ECAddEvent) :
    (eventToRow pp dNat e).1.y3_ins.result = (eventSum pp dNat e).2 := by
  have g8 := (realRow_all_gadget_cols pp dNat e).2.2.2.2.2.2.2
  rw [g8, populate_y3_ins]
  rfl

lemma realRow_tie_constraints (pp dNat : Nat) (e : ECAddEvent)
    (hw : wellFormedEvent pp dNat e) :
    ∀ c ∈ limbTieConstraints,
      constraintHolds pp dNat (eventToRow pp dNat e).1 c := by
  intro c hc
  obtain ⟨hpl, hql, hprl, hqrl, hq, hp, hqp⟩ := hw
  obtain ⟨hpacc, hqacc, -⟩ := realRow_mem pp dNat e
  simp only [limbTieConstraints, NUM_LIMBS, List.mem_flatMap, List.mem_range,
    List.mem_cons, List.not_mem_nil, or_false] at hc
  obtain ⟨i, hi, hc⟩ := hc
  have hj4 : i / 4 < 8 := by omega
  have hr4 : i % 4 < 4 := Nat.mod_lt i (by norm_num)
  rcases hc with h | h <;> subst h
  · refine Or.inr ?_
    simp only [accessOf, hpacc]
    rw [getD_map_access writeCols _ _ (by omega)]
    have hv := (hp (i / 4) (by omega)).2.1
    show limbOf pp (eventToRow pp dNat e).1.x3_ins.result i
      = byteOf (writeCols (e.p_memory_records.getD (i / 4) zeroRec)).value
          (i % 4)
    rw [realRow_x3_result]
    unfold writeCols
    simp only []
    rw [hv, eventSumWords_getD_left pp dNat e _ hj4,
      byteOf_word _ _ _ hr4, Nat.div_add_mod]
    rfl
  · refine Or.inr ?_
    simp only [accessOf, hpacc]
    rw [getD_map_access writeCols _ _ (by omega)]
    have hv := (hp (8 + i / 4) (by omega)).2.1
    show limbOf pp (eventToRow pp dNat e).1.y3_ins.result i
      = byteOf (writeCols (e.p_memory_records.getD (8 + i / 4) zeroRec)).value
          (i % 4)
    rw [realRow_y3_result]
    unfold writeCols
    simp only []
    rw [hv, eventSumWords_getD_right pp dNat e _ hj4,
      byteOf_word _ _ _ hr4, Nat.div_add_mod]
    rfl

lemma realRow_mem_constraints (pp dNat : Nat) (e : ECAddEvent)
    (hw : wellFormedEvent pp dNat e) :
    ∀ c ∈ memConstraints,
      constraintHolds pp dNat (eventToRow pp dNat e).1 c := by
  intro c hc
  obtain ⟨hpl, hql, hprl, hqrl, hq, hp, hqp⟩ := hw
  obtain ⟨hpacc, hqacc, hqpacc⟩ := realRow_mem pp dNat e
  obtain ⟨hreal, hshard, hclk, hpptr, hqptr⟩ := realRow_scalar pp dNat e
  simp only [memConstraints, List.mem_append, List.mem_cons, List.not_mem_nil,
    or_false, List.mem_map, List.mem_range] at hc
  rcases hc with (h | ⟨i, hi, h⟩) | ⟨i, hi, h⟩
  · subst h
    simp only [constraintHolds, accessOf, evalAddr, hqpacc, readCols,
      hshard, hclk, hqptr]
    exact Or.inr ⟨hqp.2.2.1, by omega, hqp.2.1⟩
  · subst h
    simp only [constraintHolds, accessOf, evalAddr, hqacc]
    rw [getD_map_access readCols _ _ (by omega)]
    obtain ⟨-, ha, hs, hc2⟩ := hq i hi
    refine Or.inr ?_
    simp only [readCols, hshard, hclk, hqptr]
    exact ⟨hs, by omega, by omega⟩
  · subst h
    simp only [constraintHolds, accessOf, evalAddr, hpacc]
    rw [getD_map_access writeCols _ _ (by omega)]
    obtain ⟨-, -, ha, hs, hc2⟩ := hp i hi
    refine Or.inr ?_
    simp only [writeCols, hshard, hclk, hpptr]
    exact ⟨hs, by omega, by omega⟩

lemma realRow_constraints (pp dNat : Nat) (e : ECAddEvent)
    (hw : wellFormedEvent pp dNat e) :
    ∀ c ∈ evalConstraints,
      constraintHolds pp dNat (eventToRow pp dNat e).1 c := by
  intro c hc
  simp only [evalConstraints, List.mem_append] at hc
  rcases hc with (h | h) | h
  · exact realRow_gadget_constraints pp dNat e hw c h
  · exact realRow_tie_constraints pp dNat e hw c h
  · exact realRow_mem_constraints pp dNat e hw c h

lemma paddingRow_is_real (pp dNat : Nat) : (paddingRow pp dNat).is_real = 0 := by
  simp [paddingRow, populate_field_ops, zeroRow]

lemma paddingRow_constraints (pp dNat : Nat) :
    ∀ c ∈ evalConstraints, constraintHolds pp dNat (paddingRow pp dNat) c := by
  intro c hc
  simp only [evalConstraints, List.mem_append] at hc
  rcases hc with (h | h) | h
  · simp only [gadgetConstraints, evalFormulas, List.map_cons, List.map_nil,
      List.mem_cons, List.not_mem_nil, or_false] at h
    rcases h with h | h | h | h | h | h | h | h <;> subst h <;>
      simp [constraintHolds, interpCall, evalWire, paddingRow,
        populate_field_ops, zeroRow, innerProductSem, fieldOpSem, denSem,
        List.take_replicate, List.drop_replicate, List.map_replicate,
        zeroAccess, wordsToNat]
  · have : ∃ i, c = Constraint.limbTieX i ∨ c = Constraint.limbTieY i := by
      simp only [limbTieConstraints, NUM_LIMBS, List.mem_flatMap,
        List.mem_range, List.mem_cons, List.not_mem_nil, or_false] at h
      obtain ⟨i, -, h⟩ := h
      exact ⟨i, h⟩
    obtain ⟨i, h | h⟩ := this <;> subst h <;>
      exact Or.inl (paddingRow_is_real pp dNat)
  · have hgate : (paddingRow pp dNat).is_real = 0 := paddingRow_is_real pp dNat
    rcases c with _ | _ | _ | ⟨off, addr, acc⟩
    · simp [memConstraints] at h
    · simp [memConstraints] at h
    · simp [memConstraints] at h
    · exact Or.inl hgate


lemma forall_mem_memConstraints (P : Constraint → Prop) :
    (∀ c ∈ memConstraints, P c) ↔
      (P (.memAccess 0 (.const 11) .qPtrAccess) ∧
       (∀ i, i < 16 → P (.memAccess 0 (.qPtrPlus (4 * i)) (.qAccess i))) ∧
       (∀ i, i < 16 → P (.memAccess 4 (.pPtrPlus (4 * i)) (.pAccess i)))) := by
  constructor
  · intro h
    refine ⟨h _ (by simp [memConstraints]), fun i hi => h _ ?_, fun i hi => h _ ?_⟩
    · simp only [memConstraints, List.mem_append, List.mem_cons, List.mem_map,
        List.mem_range]
      exact Or.inl (Or.inr ⟨i, hi, rfl⟩)
    · simp only [memConstraints, List.mem_append, List.mem_cons, List.mem_map,
        List.mem_range]
      exact Or.inr ⟨i, hi, rfl⟩
  · intro h c hc
    simp only [memConstraints, List.mem_append, List.mem_cons,
      List.not_mem_nil, or_false, List.mem_map, List.mem_range] at hc
    rcases hc with (hc | ⟨i, hi, hc⟩) | ⟨i, hi, hc⟩
    · subst hc; exact h.1
    · subst hc; exact h.2.1 i hi
    · subst hc; exact h.2.2 i hi

lemma forall_mem_limbTieConstraints (P : Constraint → Prop) :
    (∀ c ∈ limbTieConstraints, P c) ↔
      ∀ i, i < NUM_LIMBS → P (.limbTieX i) ∧ P (.limbTieY i) := by
  constructor
  · intro h i hi
    refine ⟨h _ ?_, h _ ?_⟩ <;>
      · simp only [limbTieConstraints, List.mem_flatMap, List.mem_range,
          List.mem_cons, List.not_mem_nil, or_false]
        exact ⟨i, hi, by tauto⟩
  · intro h c hc
    simp only [limbTieConstraints, List.mem_flatMap, List.mem_range,
      List.mem_cons, List.not_mem_nil, or_false] at hc
    obtain ⟨i, hi, hc | hc⟩ := hc <;> subst hc
    · exact (h i hi).1
    · exact (h i hi).2


/-! ## Claim theorems -/

/-- C1: for every trace produced by `generate_trace` from any batch of
well-formed add events, every row of the trace — real rows and padding
rows alike — makes every constraint emitted by `eval` evaluate to
zero. -/
theorem claim_C1_generated_rows_satisfy_all_constraints (pp dNat : Nat)
    (events : List ECAddEvent)
    (hw : ∀ e ∈ events, wellFormedEvent pp dNat e) :
    ∀ row ∈ (generate_trace pp dNat events).1,
      ∀ c ∈ evalConstraints, constraintHolds pp dNat row c := by
  intro row hrow
  simp only [generate_trace, List.map_map, List.mem_append, List.mem_map,
    List.mem_replicate, Function.comp] at hrow
  rcases hrow with ⟨e, he, rfl⟩ | ⟨-, rfl⟩
  · exact realRow_constraints pp dNat e (hw e he)
  · exact paddingRow_constraints pp dNat

theorem claim_C1_witness :
    (∀ e ∈ [testEvent], wellFormedEvent 7 3 e) ∧
    (∀ row ∈ (generate_trace 7 3 [testEvent]).1,
      ∀ c ∈ evalConstraints, constraintHolds 7 3 row c) :=
  ⟨by decide,
   claim_C1_generated_rows_satisfy_all_constraints 7 3 [testEvent] (by decide)⟩

/-- C2: the field-operation formulas the trace builder uses to populate
the witness columns (`populate_field_ops`) and the formulas the
constraint evaluator applies symbolically (`eval`) are identical, gadget
by gadget and argument by argument. -/
theorem claim_C2_populate_eval_formulas_identical :
    populateFormulas = evalFormulas ∧ populateFormulas.length = 8 := by
  decide

/-- C3: for every pair of input points, the witness chain populated by
`populate_field_ops` computes, over the base field,
`x3_numerator = x1 y2 + x2 y1`, `y3_numerator = y1 y2 + x1 x2`,
`f = x1 x2 y1 y2`, `d_mul_f = d f`, `x3 = x3_numerator / (1 + d f)` and
`y3 = y3_numerator / (1 - d f)` — the twisted Edwards addition law
(`addPoints`). -/
theorem claim_C3_witness_chain_is_addition_law (pp dNat : Nat)
    (cols : EdAddAssignCols pp) (p_x p_y q_x q_y : Nat) :
    (populate_field_ops pp dNat cols p_x p_y q_x q_y).x3_numerator.result
        = (p_x : ZMod pp) * (q_y : ZMod pp)
          + (q_x : ZMod pp) * (p_y : ZMod pp) ∧
    (populate_field_ops pp dNat cols p_x p_y q_x q_y).y3_numerator.result
        = (p_y : ZMod pp) * (q_y : ZMod pp)
          + (p_x : ZMod pp) * (q_x : ZMod pp) ∧
    (populate_field_ops pp dNat cols p_x p_y q_x q_y).f.result
        = (p_x : ZMod pp) * (q_x : ZMod pp)
          * (p_y : ZMod pp) * (q_y : ZMod pp) ∧
    (populate_field_ops pp dNat cols p_x p_y q_x q_y).d_mul_f.result
        = (dNat : ZMod pp)
          * (populate_field_ops pp dNat cols p_x p_y q_x q_y).f.result ∧
    (populate_field_ops pp dNat cols p_x p_y q_x q_y).x3_ins.result
        = fdiv pp
            (populate_field_ops pp dNat cols p_x p_y q_x q_y).x3_numerator.result
            (1 + (populate_field_ops pp dNat cols p_x p_y q_x q_y).d_mul_f.result) ∧
    (populate_field_ops pp dNat cols p_x p_y q_x q_y).y3_ins.result
        = fdiv pp
            (populate_field_ops pp dNat cols p_x p_y q_x q_y).y3_numerator.result
            (1 - (populate_field_ops pp dNat cols p_x p_y q_x q_y).d_mul_f.result) ∧
    (populate_field_ops pp dNat cols p_x p_y q_x q_y).x3_ins.result
        = (addPoints pp dNat p_x p_y q_x q_y).1 ∧
    (populate_field_ops pp dNat cols p_x p_y q_x q_y).y3_ins.result
        = (addPoints pp dNat p_x p_y q_x q_y).2 := by
  refine ⟨populate_x3_numerator pp dNat cols p_x p_y q_x q_y,
    populate_y3_numerator pp dNat cols p_x p_y q_x q_y,
    populate_f pp dNat cols p_x p_y q_x q_y,
    populate_d_mul_f pp dNat cols p_x p_y q_x q_y, ?_, ?_,
    populate_x3_ins pp dNat cols p_x p_y q_x q_y,
    populate_y3_ins pp dNat cols p_x p_y q_x q_y⟩ <;>
    simp [populate_field_ops, denSem, fieldOpSem]


/-- C4: for every batch of N events (N > 0), `generate_trace` yields
exactly N rows with `is_real = 1` whose order matches the order of the
input events, followed by exactly `2 ^ ceil(log2 N) - N` rows with
`is_real = 0`. -/
theorem claim_C4_trace_shape (pp dNat : Nat) (events : List ECAddEvent)
    (h : 0 < events.length) :
    ((generate_trace pp dNat events).1).length
        = 2 ^ Nat.clog 2 events.length ∧
    ((generate_trace pp dNat events).1).take events.length
        = events.map (fun e => (eventToRow pp dNat e).1) ∧
    (∀ r ∈ ((generate_trace pp dNat events).1).take events.length,
        r.is_real = 1) ∧
    ((generate_trace pp dNat events).1).drop events.length
        = List.replicate (2 ^ Nat.clog 2 events.length - events.length)
            (paddingRow pp dNat) ∧
    (∀ r ∈ ((generate_trace pp dNat events).1).drop events.length,
        r.is_real = 0) := by
  have hne : events.length ≠ 0 := Nat.pos_iff_ne_zero.mp h
  have hpl : padLen events.length = 2 ^ Nat.clog 2 events.length := by
    simp [padLen, hne]
  have hle : events.length ≤ 2 ^ Nat.clog 2 events.length :=
    Nat.le_pow_clog (by norm_num) _
  have hmap :
      ((events.map (eventToRow pp dNat)).map (fun pr => pr.1)).length
        = events.length := by simp
  have hrows : (generate_trace pp dNat events).1
      = events.map (fun e => (eventToRow pp dNat e).1)
        ++ List.replicate (2 ^ Nat.clog 2 events.length - events.length)
            (paddingRow pp dNat) := by
    simp [generate_trace, hpl, List.map_map, Function.comp]
  have hlen : (events.map fun e => (eventToRow pp dNat e).1).length
      = events.length := by simp
  refine ⟨?_, ?_, ?_, ?_, ?_⟩
  · rw [hrows]
    simp only [List.length_append, List.length_map, List.length_replicate]
    omega
  · rw [hrows, List.take_left' hlen]
  · rw [hrows, List.take_left' hlen]
    intro r hr
    rw [List.mem_map] at hr
    obtain ⟨e, -, rfl⟩ := hr
    exact (realRow_scalar pp dNat e).1
  · rw [hrows, List.drop_left' hlen]
  · rw [hrows, List.drop_left' hlen]
    intro r hr
    rw [List.eq_of_mem_replicate hr]
    exact paddingRow_is_real pp dNat

theorem claim_C4_witness :
    0 < [testEvent].length ∧
    ((generate_trace 7 3 [testEvent]).1).length
      = 2 ^ Nat.clog 2 [testEvent].length :=
  ⟨by decide, (claim_C4_trace_shape 7 3 [testEvent] (by decide)).1⟩

/-- C5: `eval` constrains all 33 memory accesses of a row (1 pointer
read, 16 Q reads, 16 P read-writes) to carry the row's claimed shard,
clock and address, with the pointer read and the Q reads at clock + 0
and the P read-writes at clock + 4, the i-th Q read at address
`q_ptr + 4 i` and the i-th P access at address `p_ptr + 4 i`, every such
constraint gated by `is_real`. -/
theorem claim_C5_memory_access_constraints :
    memConstraints.length = 33 ∧
    ∀ (pp dNat : Nat) (row : EdAddAssignCols pp),
      ((∀ c ∈ memConstraints, constraintHolds pp dNat row c) ↔
        (row.is_real = 0 ∨
          ((row.q_ptr_access.shard = row.shard ∧
            row.q_ptr_access.clk = row.clk ∧
            row.q_ptr_access.addr = 11) ∧
           (∀ i, i < 16 →
             (row.q_access.getD i zeroAccess).shard = row.shard ∧
             (row.q_access.getD i zeroAccess).clk = row.clk ∧
             (row.q_access.getD i zeroAccess).addr = row.q_ptr + 4 * i) ∧
           (∀ i, i < 16 →
             (row.p_access.getD i zeroAccess).shard = row.shard ∧
             (row.p_access.getD i zeroAccess).clk = row.clk + 4 ∧
             (row.p_access.getD i zeroAccess).addr = row.p_ptr + 4 * i)))) := by
  refine ⟨by decide, ?_⟩
  intro pp dNat row
  rw [forall_mem_memConstraints]
  by_cases hreal : row.is_real = 0
  · simp [constraintHolds, hreal]
  · simp [constraintHolds, hreal, accessOf, evalAddr]

theorem claim_C5_witness : memConstraints.length = 33 :=
  claim_C5_memory_access_constraints.1


/-- C6: `eval` emits, for each of the `NUM_LIMBS` limbs, an equality
constraint gated by `is_real` tying the `x3` division result limb to the
corresponding new value held in the P-memory-write columns 0..8 and the
`y3` result limb to the new value in the P-memory-write columns 8..16;
on rows with `is_real = 0` these constraints are trivially satisfied. -/
theorem claim_C6_result_to_memory_limb_ties :
    limbTieConstraints.length = 2 * NUM_LIMBS ∧
    ∀ (pp dNat : Nat) (row : EdAddAssignCols pp),
      ((∀ c ∈ limbTieConstraints, constraintHolds pp dNat row c) ↔
        (row.is_real = 0 ∨
          ∀ i, i < NUM_LIMBS →
            limbOf pp row.x3_ins.result i
              = byteOf ((row.p_access.getD (i / 4) zeroAccess).value)
                  (i % 4) ∧
            limbOf pp row.y3_ins.result i
              = byteOf ((row.p_access.getD (8 + i / 4) zeroAccess).value)
                  (i % 4))) := by
  refine ⟨by decide, ?_⟩
  intro pp dNat row
  rw [forall_mem_limbTieConstraints]
  by_cases hreal : row.is_real = 0
  · simp [constraintHolds, hreal]
  · simp [constraintHolds, hreal, accessOf]

theorem claim_C6_witness : limbTieConstraints.length = 2 * NUM_LIMBS :=
  claim_C6_result_to_memory_limb_ties.1

/-- C7, counterexample: at a context whose produced event has
`p_ptr = 0`, `execute` returns 1, not the extra-cycle count 8, so the
claim that `execute` returns 8 is false (it does append exactly one
event). -/
theorem claim_C7_counterexample :
    ¬ ((execute zeroPtrContext).1.ed_add_events.length
          = zeroPtrContext.ed_add_events.length + 1 ∧
       (execute zeroPtrContext).2 = 8) := by
  decide

/-- C7, amended: for every invocation, `execute` appends exactly one
event to the record's `ed_add_events` list and returns
`event.p_ptr + 1`; the fixed extra-cycle count 8 is reported by
`num_extra_cycles`, not by `execute`. -/
theorem claim_C7_execute_appends_one_event (rt : SyscallContext) :
    (execute rt).1.ed_add_events
        = rt.ed_add_events ++ [create_ec_add_event rt] ∧
    (execute rt).2 = (create_ec_add_event rt).p_ptr + 1 ∧
    num_extra_cycles = 8 :=
  ⟨rfl, rfl, rfl⟩

/-- C8: the sequence of auxiliary range-check field events appended to
the output record by `generate_trace` is a deterministic function of the
input event list, ordered by input-event position and, within one event,
by the fixed access order (the 16 Q reads, then the 16 P accesses, then
the Q-pointer read). -/
theorem claim_C8_field_events_deterministic_order (pp dNat : Nat)
    (events : List ECAddEvent) :
    (generate_trace pp dNat events).2
      = events.flatMap (fun e =>
          e.q_memory_records.flatMap recFieldEvents
            ++ e.p_memory_records.flatMap recFieldEvents
            ++ recFieldEvents e.q_ptr_record) := by
  induction events with
  | nil => rfl
  | cons e es ih =>
    simp only [generate_trace, List.map_cons, List.flatten_cons,
      List.flatMap_cons] at ih ⊢
    rw [ih]
    congr 1

/-- C9: calling `generate_trace` on an empty event batch does not fail:
it returns a trace in which every row has `is_real = 0` and every row
satisfies the full constraint set. -/
theorem claim_C9_empty_batch_all_padding (pp dNat : Nat) :
    (generate_trace pp dNat []).1 = [paddingRow pp dNat] ∧
    (generate_trace pp dNat []).2 = [] ∧
    (∀ row ∈ (generate_trace pp dNat []).1, row.is_real = 0) ∧
    (∀ row ∈ (generate_trace pp dNat []).1,
      ∀ c ∈ evalConstraints, constraintHolds pp dNat row c) := by
  have h1 : (generate_trace pp dNat []).1 = [paddingRow pp dNat] := by
    simp [generate_trace, padLen]
  refine ⟨h1, rfl, ?_, ?_⟩
  · rw [h1]
    intro row hrow
    rw [List.mem_singleton] at hrow
    rw [hrow]
    exact paddingRow_is_real pp dNat
  · rw [h1]
    intro row hrow
    rw [List.mem_singleton] at hrow
    rw [hrow]
    exact paddingRow_constraints pp dNat

/-- C10: every padding row is produced by running the same
`populate_field_ops` routine used for real rows with both input points
set to all-zero coordinates — not the twisted Edwards identity point
(0, 1) — and with every non-gadget column (`is_real`, shard, clock,
pointers, memory accesses) left zero. -/
theorem claim_C10_padding_rows_zero_inputs (pp dNat : Nat) :
    paddingRow pp dNat = populate_field_ops pp dNat (zeroRow pp) 0 0 0 0 ∧
    ((paddingRow pp dNat).is_real = 0 ∧
     (paddingRow pp dNat).shard = 0 ∧
     (paddingRow pp dNat).clk = 0 ∧
     (paddingRow pp dNat).p_ptr = 0 ∧
     (paddingRow pp dNat).q_ptr = 0 ∧
     (paddingRow pp dNat).q_ptr_access = zeroAccess ∧
     (paddingRow pp dNat).p_access = List.replicate 16 zeroAccess ∧
     (paddingRow pp dNat).q_access = List.replicate 16 zeroAccess) ∧
    (1 < pp →
      paddingRow pp dNat ≠ populate_field_ops pp dNat (zeroRow pp) 0 1 0 1) := by
  refine ⟨rfl, by simp [paddingRow, populate_field_ops, zeroRow], ?_⟩
  intro hpp heq
  haveI : Fact (1 < pp) := ⟨hpp⟩
  have h0 : (paddingRow pp dNat).y3_numerator.result = 0 := by
    simpa using populate_y3_numerator pp dNat (zeroRow pp) 0 0 0 0
  have h1 : (populate_field_ops pp dNat (zeroRow pp) 0 1 0 1).y3_numerator.result
      = 1 := by
    simpa using populate_y3_numerator pp dNat (zeroRow pp) 0 1 0 1
  rw [heq, h1] at h0
  exact one_ne_zero h0

theorem claim_C10_witness :
    (1 : Nat) < 7 ∧
    paddingRow 7 3 ≠ populate_field_ops 7 3 (zeroRow 7) 0 1 0 1 :=
  ⟨by decide, (claim_C10_padding_rows_zero_inputs 7 3).2.2 (by decide)⟩


end EdAddSpec
